import Mathlib

/-!
Verification development for the CORD-19 "Setup" notebook
(01-aml-model-training/notebooks/Setup.ipynb).

The notebook is a linear pipeline: read article metadata, parse the
full-text JSON documents of the first N articles into token lists,
train or load a Doc2Vec embedding model, infer one vector per document,
cluster the vectors with KMeans (cluster count picked by an elbow search
and capped at 12), attach the cluster labels to the metadata table, and
split the labeled table 80/20 into train and test sets.

The embedding below is shallow: the mounted remote storage becomes an
explicit `Storage` state (a mounted flag plus a map from paths to file
contents), the pandas tables become lists, and the external libraries
(nltk tokenizers, the Snowball stemmer, gensim Doc2Vec, yellowbrick
KElbowVisualizer, sklearn KMeans and train_test_split, pandas concat)
are modelled from the specification as pure functions, passed in as
parameters or structure fields.  All notebook-level control flow (the
remount-and-retry read, the tokenize/filter/stem loop, the corpus
iterator, the load-or-train block, the inference loop, the cap on the
cluster count, the in-place column assignment, the split) is translated
directly from the notebook cells.
-/

/-- A full-text JSON document: the notebook only reads the body_text
field, an ordered list of paragraph objects, of which only the text
string is used. -/
structure DocJson where
  body_text : List String

/-- One row of the metadata table restricted to the fields the pipeline
reads: the article id (cord_uid) and the semicolon-joined list of
full-text JSON file paths (pdf_json_files). -/
structure Article where
  cord_uid : String
  pdf_json_files : String

/-- The mounted remote storage: the mount flag toggled by mount.start()
and the files visible through the mount point.  Opening a path while the
mount is down raises a file-not-found error, modelled as a failed
lookup. -/
structure Storage where
  mounted : Bool
  files : String → Option DocJson

/-- Python str.isalpha: nonempty and every character alphabetic. -/
def isalpha (s : String) : Bool :=
  !s.isEmpty && s.toList.all Char.isAlpha

/-- Python str.lower, modelled characterwise. -/
def pyLower (s : String) : String :=
  String.mk (s.toList.map Char.toLower)

/-- Helper for pySplit: fuel-driven scan so that evaluation is purely
structural.  The fuel is the length of the scanned list, which bounds
the number of steps. -/
def pySplitAux (sep : List Char) : Nat → List Char → List Char → List (List Char)
  | 0, cs, acc => [acc.reverse ++ cs]
  | _ + 1, [], acc => [acc.reverse]
  | fuel + 1, c :: cs, acc =>
    if sep ≠ [] ∧ sep.isPrefixOf (c :: cs) then
      acc.reverse :: pySplitAux sep fuel ((c :: cs).drop sep.length) []
    else
      pySplitAux sep fuel cs (c :: acc)

/-- Python str.split with an explicit separator, as used for the
semicolon-joined pdf_json_files cell. -/
def pySplit (s : String) (sep : String) : List String :=
  (pySplitAux sep.toList s.toList.length s.toList []).map String.mk

/-- Python string.punctuation. -/
def punctuation : List Char :=
  "!\"#$%&\x27()*+,-./:;<=>?@[\\]^_`\x7b|\x7d~".toList

/-- The stop set of the notebook: the nltk English stopwords (external
data, passed in), every punctuation mark as a one-character string, and
the domain exclusions et and al. -/
def stop_tokens (stopwords : List String) : List String :=
  stopwords ++ punctuation.map (fun c => String.mk [c]) ++ ["et", "al."]

/-- Modelled from the spec: the external language-processing
collaborators of the notebook.  sent_tokenize and word_tokenize are the
nltk tokenizers, stem is the Snowball stemmer, stopwords is the nltk
English stopword list, and covid_dirpath is the mount-point directory
that file names are joined onto. -/
structure NLP where
  sent_tokenize : String → List String
  word_tokenize : String → List String
  stem : String → String
  stopwords : List String
  covid_dirpath : String

/-- One attempted open of a path: succeeds only while the storage is
mounted and the path is present. -/
def openAttempt (st : Storage) (p : String) : Option DocJson :=
  if st.mounted then st.files p else none

/-- mount.start(): re-establishes the mount; the visible files are
unchanged. -/
def mountStart (st : Storage) : Storage :=
  ⟨true, st.files⟩

/-- Reader.read_file_to_json: try to open and parse the file; on a
file-not-found error restart the mount and retry once; a second failure
propagates to the caller. -/
def read_file_to_json (st : Storage) (p : String) : Storage × Except Unit DocJson :=
  match openAttempt st p with
  | some d => (st, Except.ok d)
  | none =>
    match openAttempt (mountStart st) p with
    | some d => (mountStart st, Except.ok d)
    | none => (mountStart st, Except.error ())

/-- The tokenization of one parsed document, translated from the inner
loops of Reader.parse_document: for each body_text paragraph, split into
sentences, split each sentence into words, keep the words that are
alphabetic and whose lower-cased form is not in the stop set, and stem
the survivors. -/
def doc_tokens (env : NLP) (d : DocJson) : List String :=
  d.body_text.flatMap fun paragraph =>
    (env.sent_tokenize paragraph).flatMap fun p_sentence =>
      ((env.word_tokenize p_sentence).filter fun word =>
          isalpha word && !((stop_tokens env.stopwords).contains (pyLower word))).map
        env.stem

/-- The file loop of Reader.parse_document: read every referenced file
in order, extending the word list with the tokens of each; a read that
fails even after the remount retry aborts the whole parse. -/
def parse_files (env : NLP) : Storage → List String → Storage × Except Unit (List String)
  | st, [] => (st, Except.ok [])
  | st, f :: fs =>
    let r := read_file_to_json st (env.covid_dirpath ++ "/" ++ f)
    match r.2 with
    | Except.ok d =>
      let r2 := parse_files env r.1 fs
      match r2.2 with
      | Except.ok ws => (r2.1, Except.ok (doc_tokens env d ++ ws))
      | Except.error e => (r2.1, Except.error e)
    | Except.error e => (r.1, Except.error e)

/-- Reader.parse_document: look the article up by positional index in
the filtered metadata table, split its pdf_json_files cell on the
separator, parse every referenced file, and return the concatenated
token list together with the article id. -/
def parse_document (env : NLP) (st : Storage) (table : List Article) (i : Nat) :
    Storage × Except Unit (List String × String) :=
  match table[i]? with
  | none => (st, Except.error ())
  | some document =>
    let r := parse_files env st (pySplit document.pdf_json_files "; ")
    match r.2 with
    | Except.ok words => (r.1, Except.ok (words, document.cord_uid))
    | Except.error e => (r.1, Except.error e)

/-- The tags argument of a gensim TaggedDocument as the notebook could
pass it: either a raw Python string or a list of tag strings.  The
notebook passes the raw article id string, not a one-element list. -/
inductive PyTags where
  | str (s : String)
  | list (l : List String)
deriving DecidableEq

/-- gensim TaggedDocument: a named tuple of the token list and the tags
value. -/
structure TaggedDocument where
  words : List String
  tags : PyTags
deriving DecidableEq

/-- The loop body shared by both Corpus iterators, indexed by the count
of documents still to produce and the current document index: parse each
document in ascending index order, stopping at the first error. -/
def plain_iter_aux (env : NLP) (table : List Article) :
    Nat → Nat → Storage → Storage × Except Unit (List (List String × String))
  | 0, _, st => (st, Except.ok [])
  | n + 1, i, st =>
    let r := parse_document env st table i
    match r.2 with
    | Except.ok x =>
      let r2 := plain_iter_aux env table n (i + 1) r.1
      match r2.2 with
      | Except.ok xs => (r2.1, Except.ok (x :: xs))
      | Except.error e => (r2.1, Except.error e)
    | Except.error e => (r.1, Except.error e)

/-- Corpus.plain_iter fully consumed: the (token-list, document-id)
pairs of document indices 0 to n-1 in ascending order. -/
def plain_iter (env : NLP) (table : List Article) (n : Nat) (st : Storage) :
    Storage × Except Unit (List (List String × String)) :=
  plain_iter_aux env table n 0 st

/-- The loop body of Corpus.__iter__, which wraps each parsed pair in a
TaggedDocument whose tags value is the raw document-id string. -/
def corpus_iter_aux (env : NLP) (table : List Article) :
    Nat → Nat → Storage → Storage × Except Unit (List TaggedDocument)
  | 0, _, st => (st, Except.ok [])
  | n + 1, i, st =>
    let r := parse_document env st table i
    match r.2 with
    | Except.ok x =>
      let r2 := corpus_iter_aux env table n (i + 1) r.1
      match r2.2 with
      | Except.ok xs => (r2.1, Except.ok (TaggedDocument.mk x.1 (PyTags.str x.2) :: xs))
      | Except.error e => (r2.1, Except.error e)
    | Except.error e => (r.1, Except.error e)

/-- Corpus.__iter__ fully consumed. -/
def corpus_iter (env : NLP) (table : List Article) (n : Nat) (st : Storage) :
    Storage × Except Unit (List TaggedDocument) :=
  corpus_iter_aux env table n 0 st

/-- The outcome of one read as a function of the visible files alone:
present files are returned, absent files are fatal after the retry. -/
def read_result (files : String → Option DocJson) (p : String) : Except Unit DocJson :=
  match files p with
  | some d => Except.ok d
  | none => Except.error ()

/-- The outcome of the parse_files loop as a function of the visible
files alone. -/
def parse_files_result (env : NLP) (files : String → Option DocJson) :
    List String → Except Unit (List String)
  | [] => Except.ok []
  | f :: fs =>
    match read_result files (env.covid_dirpath ++ "/" ++ f) with
    | Except.ok d =>
      match parse_files_result env files fs with
      | Except.ok ws => Except.ok (doc_tokens env d ++ ws)
      | Except.error e => Except.error e
    | Except.error e => Except.error e

/-- The outcome of parse_document as a function of the visible files
alone. -/
def parse_document_result (env : NLP) (files : String → Option DocJson)
    (table : List Article) (i : Nat) : Except Unit (List String × String) :=
  match table[i]? with
  | none => Except.error ()
  | some document =>
    match parse_files_result env files (pySplit document.pdf_json_files "; ") with
    | Except.ok words => Except.ok (words, document.cord_uid)
    | Except.error e => Except.error e

/-- The outcome of a full iteration pass as a function of the visible
files alone: each pass re-reads the storage, so its output is determined
by the files visible at that pass. -/
def plain_iter_result (env : NLP) (files : String → Option DocJson) (table : List Article) :
    Nat → Nat → Except Unit (List (List String × String))
  | 0, _ => Except.ok []
  | n + 1, i =>
    match parse_document_result env files table i with
    | Except.ok x =>
      match plain_iter_result env files table n (i + 1) with
      | Except.ok xs => Except.ok (x :: xs)
      | Except.error e => Except.error e
    | Except.error e => Except.error e

/-- Modelled from the spec: a gensim Doc2Vec model.  The spec fixes that
inference is deterministic given the model state and the input tokens
and has no side effect on the model, so the learned state is carried as
a pure inference function together with the configured dimensionality;
gensim itself is an external library, not part of this repository. -/
structure Doc2Vec where
  vector_size : Nat
  infer : List String → List Int

/-- model.infer_vector as the notebook calls it: returns the model state
it leaves behind together with the inferred vector.  Modelled from the
spec: side-effect-free, so the model state is returned unchanged. -/
def infer_vector (model : Doc2Vec) (tokens : List String) : Doc2Vec × List Int :=
  (model, model.infer tokens)

/-- The inference loop of the notebook: walk the plain corpus pairs,
appending each document id to ids and each inferred vector to
word_vectors, in lockstep.  The model state is threaded through every
call. -/
def infer_loop (model : Doc2Vec) :
    List (List String × String) → Doc2Vec × List (List Int) × List String
  | [] => (model, ([], []))
  | (words, doc_id) :: rest =>
    let r := infer_vector model words
    let r2 := infer_loop r.1 rest
    (r2.1, (r.2 :: r2.2.1, doc_id :: r2.2.2))

/-- The deterministic model artifact filename of the notebook, built
from the document count alone. -/
def model_filename (n : Nat) : String :=
  "covid_embeddings_model_" ++ toString n ++ "_docs.w2v"

/-- The load-or-train cell: if the artifact file exists it is loaded and
nothing is written; otherwise a model is trained over Corpus(n) with
vector_size 128 and batch_words 10 and saved under the artifact
filename.  The external trainer is passed in as a function of the
document count, the vector size and the batch size. -/
def load_or_train_model (train : Nat → Nat → Nat → Doc2Vec)
    (disk : String → Option Doc2Vec) (n : Nat) :
    Doc2Vec × (String → Option Doc2Vec) :=
  match disk (model_filename n) with
  | some m => (m, disk)
  | none => (train n 128 10, fun p => if p = model_filename n then some (train n 128 10) else disk p)

/-- Modelled from the spec: the external clustering collaborators.
elbow_value is the yellowbrick KElbowVisualizer fitted over the
candidate range given by the two bounds; kmeans_labels is an sklearn
KMeans fit that emits the label list of the fitted rows. -/
structure ClusterLib where
  elbow_value : Nat → Nat → List (List Int) → Nat
  kmeans_labels : Nat → List (List Int) → List Nat

/-- The cap expression of the clustering cell: 12 if the elbow value
exceeds 12, else the elbow value. -/
def cap_k (elbow_value : Nat) : Nat :=
  if elbow_value > 12 then 12 else elbow_value

/-- The clustering cell: run the elbow search over candidate counts
between 3 and 20, cap the chosen count at 12, and fit the final KMeans
clustering with the capped count, emitting the labels. -/
def clustering_stage (lib : ClusterLib) (wv_rows : List (List Int)) : Nat × List Nat :=
  (cap_k (lib.elbow_value 3 20 wv_rows),
   lib.kmeans_labels (cap_k (lib.elbow_value 3 20 wv_rows)) wv_rows)

/-- The wv_df cell: a data frame of the inferred vectors indexed by the
collected document ids, row i carrying the vector inferred for the i-th
id. -/
def wv_df (word_vectors : List (List Int)) (ids : List String) : List (String × List Int) :=
  ids.zip word_vectors

/-- metadata_with_docs.set_index applied to cord_uid: each row keyed by
its article id. -/
def set_index (rows : List Article) : List (String × Article) :=
  rows.map fun a => (a.cord_uid, a)

/-- Modelled from the pandas documentation: concat with axis 1 is an
outer join on the row index.  The result has one row per distinct key,
the keys of the left frame first, and each row carries the left and
right rows found under that key. -/
def concat_axis1 (left : List (String × Article)) (right : List (String × List Int)) :
    List (String × Option Article × Option (List Int)) :=
  ((left.map Prod.fst ++ right.map Prod.fst).dedup).map
    fun k => (k, List.lookup k left, List.lookup k right)

/-- The metadata_with_embeddings cell: join the first n rows of the
id-indexed metadata with the vector frame on the article id. -/
def metadata_with_embeddings (meta : List Article) (n : Nat)
    (frame : List (String × List Int)) : List (String × Option Article × Option (List Int)) :=
  concat_axis1 ((set_index meta).take n) frame

/-- A pandas data frame as the cluster-attachment cell sees it: the row
index and the named columns. -/
structure DataFrame where
  index : List String
  cols : List (String × List Int)
deriving DecidableEq

/-- The empty frame, used as the out-of-range default of heap reads. -/
def dfEmpty : DataFrame :=
  ⟨[], []⟩

/-- Python df[name] = vals: replace the column in place when the name is
already present, otherwise append it as the last column.  The row index
is untouched. -/
def set_column (df : DataFrame) (name : String) (vals : List Int) : DataFrame :=
  if name ∈ df.cols.map Prod.fst then
    ⟨df.index, df.cols.map fun c => if c.1 = name then (name, vals) else c⟩
  else
    ⟨df.index, df.cols ++ [(name, vals)]⟩

/-- The cluster-attachment cell, against an explicit heap of data-frame
objects addressed by reference: metadata_with_clusters =
metadata_with_embeddings copies the reference only, and the column
assignment mutates the shared object in place.  Returns the updated heap
and the reference held by metadata_with_clusters. -/
def attach_clusters (heap : List DataFrame) (mwe_ref : Nat) (clusters : List Int) :
    List DataFrame × Nat :=
  (heap.set mwe_ref (set_column (heap.getD mwe_ref dfEmpty) "cluster" clusters), mwe_ref)

/-- Modelled from the spec: sklearn train_test_split with train_size
0.8 shuffles the rows by a run-dependent random permutation (no seed is
fixed) and then splits the shuffled rows at floor(0.8 times the row
count).  The shuffled list is the argument; the permutation itself is a
hypothesis of the theorem. -/
def train_test_split (shuffled : List α) : List α × List α :=
  (shuffled.take (4 * shuffled.length / 5), shuffled.drop (4 * shuffled.length / 5))

/-- Concrete language environment for evaluating the theorems: identity
sentence splitting, whitespace word splitting, identity stemming, one
stopword. -/
def envW : NLP :=
  ⟨fun s => [s], fun s => pySplit s " ", fun w => w, ["the"], "d"⟩

/-- Concrete mounted storage with one article file. -/
def stW : Storage :=
  ⟨true, fun p => if p = "d/f1" then some ⟨["the virus spread"]⟩ else none⟩

/-- Concrete one-article metadata table. -/
def tableW : List Article :=
  [⟨"u1", "f1"⟩]

/-- Concrete embedding model: dimensionality 128, inference returning
the token count. -/
def modelW : Doc2Vec :=
  ⟨128, fun ws => [Int.ofNat ws.length]⟩

/-- Concrete plain corpus output. -/
def docsW : List (List String × String) :=
  [(["a"], "u1"), (["b", "c"], "u2")]

/-- Concrete two-article metadata table whose ids match docsW. -/
def metaW : List Article :=
  [⟨"u1", "f1"⟩, ⟨"u2", "f2"⟩]

/-- Concrete clustering collaborators: the elbow search returns the low
end of the candidate range, KMeans labels every row with the largest
valid label. -/
def libW : ClusterLib :=
  ⟨fun lo _ _ => lo, fun k rows => rows.map fun _ => k - 1⟩

/-- Concrete vector rows for the clustering stage. -/
def rowsW : List (List Int) :=
  [[1], [2]]

/-- Concrete heap with one data-frame object. -/
def heapW : List DataFrame :=
  [⟨["r1", "r2"], [("x", [5, 6])]⟩]

lemma mountStart_files (st : Storage) : (mountStart st).files = st.files := rfl

lemma mountStart_mounted (st : Storage) : (mountStart st).mounted = true := rfl

lemma read_files_eq (st : Storage) (p : String) :
    ((read_file_to_json st p).1).files = st.files := by
  rcases st with ⟨m, files⟩
  cases m <;> cases h : files p <;>
    simp [read_file_to_json, openAttempt, mountStart, h]

lemma read_snd_eq (st : Storage) (p : String) :
    (read_file_to_json st p).2 = read_result st.files p := by
  rcases st with ⟨m, files⟩
  cases m <;> cases h : files p <;>
    simp [read_file_to_json, openAttempt, mountStart, read_result, h]

lemma read_mounted_fst (st : Storage) (p : String) (h : st.mounted = true) :
    (read_file_to_json st p).1 = st := by
  rcases st with ⟨m, files⟩
  cases h
  cases hf : files p <;>
    simp [read_file_to_json, openAttempt, mountStart, hf]

lemma read_shape (st : Storage) (p : String) :
    (read_file_to_json st p).1 = st ∨ (read_file_to_json st p).1 = mountStart st := by
  rcases st with ⟨m, files⟩
  cases m <;> cases h : files p <;>
    simp [read_file_to_json, openAttempt, mountStart, h]

lemma read_ok_files (st : Storage) (p : String) (st1 : Storage) (d : DocJson)
    (h : read_file_to_json st p = (st1, Except.ok d)) : st.files p = some d := by
  have h2 := read_snd_eq st p
  rw [h] at h2
  unfold read_result at h2
  cases hf : st.files p <;> rw [hf] at h2 <;> simp_all

lemma read_of_mounted (st : Storage) (p : String) (d : DocJson)
    (hm : st.mounted = true) (hf : st.files p = some d) :
    read_file_to_json st p = (st, Except.ok d) := by
  rcases hr : read_file_to_json st p with ⟨s1, r1⟩
  have e1 : s1 = st := by rw [← read_mounted_fst st p hm, hr]
  have e2 : r1 = Except.ok d := by
    have := read_snd_eq st p
    rw [hr] at this
    simp [read_result, hf] at this
    simp [this]
  rw [e1, e2]

lemma parse_files_files_eq (env : NLP) (fs : List String) (st : Storage) :
    ((parse_files env st fs).1).files = st.files := by
  induction fs generalizing st with
  | nil => rfl
  | cons f fs ih =>
    simp only [parse_files]
    rcases h1 : (read_file_to_json st (env.covid_dirpath ++ "/" ++ f)).2 with e | d
    · simp [read_files_eq]
    · rcases h2 : (parse_files env (read_file_to_json st (env.covid_dirpath ++ "/" ++ f)).1 fs).2
        with e | ws <;>
        simp [ih, read_files_eq]

lemma parse_files_snd_eq (env : NLP) (fs : List String) (st : Storage) :
    (parse_files env st fs).2 = parse_files_result env st.files fs := by
  induction fs generalizing st with
  | nil => rfl
  | cons f fs ih =>
    simp only [parse_files, parse_files_result]
    rw [← read_snd_eq st (env.covid_dirpath ++ "/" ++ f)]
    rcases h1 : (read_file_to_json st (env.covid_dirpath ++ "/" ++ f)).2 with e | d
    · rfl
    · rw [← read_files_eq st (env.covid_dirpath ++ "/" ++ f),
        ← ih (read_file_to_json st (env.covid_dirpath ++ "/" ++ f)).1]
      rcases h2 : (parse_files env (read_file_to_json st (env.covid_dirpath ++ "/" ++ f)).1 fs).2
        with e | ws <;> rfl

lemma parse_files_mounted_fst (env : NLP) (fs : List String) (st : Storage)
    (hm : st.mounted = true) : (parse_files env st fs).1 = st := by
  induction fs generalizing st with
  | nil => rfl
  | cons f fs ih =>
    simp only [parse_files]
    rw [read_mounted_fst st (env.covid_dirpath ++ "/" ++ f) hm]
    rcases h1 : (read_file_to_json st (env.covid_dirpath ++ "/" ++ f)).2 with e | d
    · rfl
    · rw [ih st hm]
      rcases h2 : (parse_files env st fs).2 with e | ws <;> rfl

lemma mountStart_idem (st : Storage) : mountStart (mountStart st) = mountStart st := rfl

lemma parse_files_shape (env : NLP) (fs : List String) (st : Storage) :
    (parse_files env st fs).1 = st ∨ (parse_files env st fs).1 = mountStart st := by
  induction fs generalizing st with
  | nil => left; rfl
  | cons f fs ih =>
    simp only [parse_files]
    rcases read_shape st (env.covid_dirpath ++ "/" ++ f) with hs | hs <;> rw [hs]
    · rcases h1 : (read_file_to_json st (env.covid_dirpath ++ "/" ++ f)).2 with e | d
      · left; rfl
      · rcases h2 : (parse_files env st fs).2 with e | ws <;> simpa using ih st
    · rcases h1 : (read_file_to_json st (env.covid_dirpath ++ "/" ++ f)).2 with e | d
      · right; rfl
      · rw [parse_files_mounted_fst env fs (mountStart st) (mountStart_mounted st)]
        rcases h2 : (parse_files env (mountStart st) fs).2 with e | ws
        · right; rfl
        · right; rfl

lemma parse_files_tokens (env : NLP) (fs : List String) (st st1 : Storage) (ws : List String)
    (h : parse_files env st fs = (st1, Except.ok ws)) :
    ∀ t ∈ ws, ∃ f ∈ fs, ∃ d : DocJson,
      st.files (env.covid_dirpath ++ "/" ++ f) = some d ∧ t ∈ doc_tokens env d := by
  induction fs generalizing st ws with
  | nil =>
    simp only [parse_files, Prod.mk.injEq, Except.ok.injEq] at h
    rw [← h.2]
    intro t ht
    cases ht
  | cons f fs ih =>
    simp only [parse_files] at h
    rcases h1 : (read_file_to_json st (env.covid_dirpath ++ "/" ++ f)).2 with e | d <;>
      rw [h1] at h
    · simp at h
    · rcases h2 : (parse_files env (read_file_to_json st (env.covid_dirpath ++ "/" ++ f)).1 fs).2
        with e | ws2 <;> rw [h2] at h
      · simp at h
      · simp only [Prod.mk.injEq, Except.ok.injEq] at h
        rw [← h.2]
        intro t ht
        rcases List.mem_append.mp ht with hl | hr
        · refine ⟨f, List.mem_cons_self f fs, d, ?_, hl⟩
          have h3 := read_snd_eq st (env.covid_dirpath ++ "/" ++ f)
          rw [h1] at h3
          unfold read_result at h3
          cases hf : st.files (env.covid_dirpath ++ "/" ++ f) <;> rw [hf] at h3 <;> simp_all
        · have hpair : parse_files env
              (read_file_to_json st (env.covid_dirpath ++ "/" ++ f)).1 fs =
              (st1, Except.ok ws2) := by
            rw [Prod.ext_iff]
            exact ⟨h.1, h2⟩
          obtain ⟨f2, hf2, d2, hd2, htok⟩ :=
            ih (read_file_to_json st (env.covid_dirpath ++ "/" ++ f)).1 ws2 hpair t hr
          rw [read_files_eq st (env.covid_dirpath ++ "/" ++ f)] at hd2
          exact ⟨f2, List.mem_cons_of_mem f hf2, d2, hd2, htok⟩

lemma doc_tokens_mem (env : NLP) (d : DocJson) (t : String) (h : t ∈ doc_tokens env d) :
    ∃ paragraph ∈ d.body_text, ∃ p_sentence ∈ env.sent_tokenize paragraph,
      ∃ w ∈ env.word_tokenize p_sentence,
        isalpha w = true ∧ (stop_tokens env.stopwords).contains (pyLower w) = false ∧
          t = env.stem w := by
  simp only [doc_tokens, List.mem_flatMap, List.mem_map, List.mem_filter] at h
  obtain ⟨para, hpara, sen, hsen, w, ⟨hw, hcond⟩, ht⟩ := h
  simp only [Bool.and_eq_true, Bool.not_eq_true'] at hcond
  exact ⟨para, hpara, sen, hsen, w, hw, hcond.1, hcond.2, ht.symm⟩

lemma parse_document_ok (env : NLP) (st : Storage) (table : List Article) (i : Nat)
    (st1 : Storage) (ws : List String) (uid : String)
    (h : parse_document env st table i = (st1, Except.ok (ws, uid))) :
    ∃ document, table[i]? = some document ∧ uid = document.cord_uid ∧
      parse_files env st (pySplit document.pdf_json_files "; ") = (st1, Except.ok ws) := by
  unfold parse_document at h
  cases hd : table[i]? with
  | none => rw [hd] at h; simp at h
  | some document =>
    rw [hd] at h
    simp only at h
    rcases h2 : (parse_files env st (pySplit document.pdf_json_files "; ")).2 with e | words <;>
      rw [h2] at h
    · simp at h
    · simp only [Prod.mk.injEq, Except.ok.injEq] at h
      refine ⟨document, rfl, h.2.2.symm, ?_⟩
      rw [Prod.ext_iff]
      refine ⟨h.1, ?_⟩
      rw [h2, h.2.1]

lemma parse_document_files_eq (env : NLP) (st : Storage) (table : List Article) (i : Nat) :
    ((parse_document env st table i).1).files = st.files := by
  unfold parse_document
  cases hd : table[i]? with
  | none => rfl
  | some document =>
    simp only
    rcases h2 : (parse_files env st (pySplit document.pdf_json_files "; ")).2 with e | words <;>
      simp [parse_files_files_eq]

lemma parse_document_snd_eq (env : NLP) (st : Storage) (table : List Article) (i : Nat) :
    (parse_document env st table i).2 = parse_document_result env st.files table i := by
  unfold parse_document parse_document_result
  cases hd : table[i]? with
  | none => rfl
  | some document =>
    simp only
    rw [← parse_files_snd_eq env (pySplit document.pdf_json_files "; ") st]
    rcases h2 : (parse_files env st (pySplit document.pdf_json_files "; ")).2 with e | words <;>
      rfl

lemma parse_document_mounted_fst (env : NLP) (st : Storage) (table : List Article) (i : Nat)
    (hm : st.mounted = true) : (parse_document env st table i).1 = st := by
  unfold parse_document
  cases hd : table[i]? with
  | none => rfl
  | some document =>
    simp only
    rw [parse_files_mounted_fst env (pySplit document.pdf_json_files "; ") st hm]
    rcases h2 : (parse_files env st (pySplit document.pdf_json_files "; ")).2 with e | words <;>
      rfl

lemma parse_document_shape (env : NLP) (st : Storage) (table : List Article) (i : Nat) :
    (parse_document env st table i).1 = st ∨ (parse_document env st table i).1 = mountStart st := by
  unfold parse_document
  cases hd : table[i]? with
  | none => left; rfl
  | some document =>
    simp only
    rcases parse_files_shape env (pySplit document.pdf_json_files "; ") st with hs | hs <;>
      rw [hs] <;>
      rcases h2 : (parse_files env st (pySplit document.pdf_json_files "; ")).2 with e | words
    · left; rfl
    · left; rfl
    · right; rfl
    · right; rfl

lemma plain_iter_aux_files_eq (env : NLP) (table : List Article) (n i : Nat) (st : Storage) :
    ((plain_iter_aux env table n i st).1).files = st.files := by
  induction n generalizing i st with
  | zero => rfl
  | succ n ih =>
    simp only [plain_iter_aux]
    rcases h1 : (parse_document env st table i).2 with e | x
    · simp [parse_document_files_eq]
    · rcases h2 : (plain_iter_aux env table n (i + 1) (parse_document env st table i).1).2
        with e | xs <;>
        simp [ih, parse_document_files_eq]

lemma plain_iter_aux_snd_eq (env : NLP) (table : List Article) (n i : Nat) (st : Storage) :
    (plain_iter_aux env table n i st).2 = plain_iter_result env st.files table n i := by
  induction n generalizing i st with
  | zero => rfl
  | succ n ih =>
    simp only [plain_iter_aux, plain_iter_result]
    rw [← parse_document_snd_eq env st table i]
    rcases h1 : (parse_document env st table i).2 with e | x
    · rfl
    · rw [← parse_document_files_eq env st table i, ← ih (i + 1) (parse_document env st table i).1]
      rcases h2 : (plain_iter_aux env table n (i + 1) (parse_document env st table i).1).2
        with e | xs <;> rfl

lemma plain_iter_aux_mounted_fst (env : NLP) (table : List Article) (n i : Nat) (st : Storage)
    (hm : st.mounted = true) : (plain_iter_aux env table n i st).1 = st := by
  induction n generalizing i st with
  | zero => rfl
  | succ n ih =>
    simp only [plain_iter_aux]
    rw [parse_document_mounted_fst env st table i hm]
    rcases h1 : (parse_document env st table i).2 with e | x
    · rfl
    · rw [ih (i + 1) st hm]
      rcases h2 : (plain_iter_aux env table n (i + 1) st).2 with e | xs <;> rfl

lemma plain_iter_aux_shape (env : NLP) (table : List Article) (n i : Nat) (st : Storage) :
    (plain_iter_aux env table n i st).1 = st ∨
      (plain_iter_aux env table n i st).1 = mountStart st := by
  induction n generalizing i st with
  | zero => left; rfl
  | succ n ih =>
    simp only [plain_iter_aux]
    rcases parse_document_shape env st table i with hs | hs <;> rw [hs]
    · rcases h1 : (parse_document env st table i).2 with e | x
      · left; rfl
      · rcases h2 : (plain_iter_aux env table n (i + 1) st).2 with e | xs <;>
          simpa using ih (i + 1) st
    · rcases h1 : (parse_document env st table i).2 with e | x
      · right; rfl
      · rw [plain_iter_aux_mounted_fst env table n (i + 1) (mountStart st)
          (mountStart_mounted st)]
        rcases h2 : (plain_iter_aux env table n (i + 1) (mountStart st)).2 with e | xs
        · right; rfl
        · right; rfl

lemma plain_iter_aux_ok (env : NLP) (table : List Article) (n i : Nat) (st st1 : Storage)
    (xs : List (List String × String))
    (h : plain_iter_aux env table n i st = (st1, Except.ok xs)) :
    xs.length = n ∧ (0 < n → i + n ≤ table.length) ∧
      xs.map Prod.snd = ((table.drop i).take n).map Article.cord_uid := by
  induction n generalizing i st xs with
  | zero =>
    simp only [plain_iter_aux, Prod.mk.injEq, Except.ok.injEq] at h
    rw [← h.2]
    simp
  | succ n ih =>
    simp only [plain_iter_aux] at h
    rcases h1 : (parse_document env st table i).2 with e | x <;> rw [h1] at h
    · simp at h
    · rcases h2 : (plain_iter_aux env table n (i + 1) (parse_document env st table i).1).2
        with e | xs2 <;> rw [h2] at h
      · simp at h
      · simp only [Prod.mk.injEq, Except.ok.injEq] at h
        obtain ⟨doc, hdoc, huid, hpf⟩ :=
          parse_document_ok env st table i (parse_document env st table i).1 x.1 x.2
            (by rw [Prod.ext_iff]; exact ⟨rfl, by rw [h1]⟩)
        obtain ⟨hlen, hbound, hids⟩ :=
          ih (i + 1) (parse_document env st table i).1 xs2
            (by rw [Prod.ext_iff]; exact ⟨h.1, h2⟩)
        have hi : i < table.length := by
          by_contra hnot
          push_neg at hnot
          rw [List.getElem?_eq_none hnot] at hdoc
          cases hdoc
        have hdrop : table.drop i = table[i] :: table.drop (i + 1) :=
          List.drop_eq_getElem_cons hi
        have hdoceq : doc = table[i] := by
          rw [List.getElem?_eq_getElem hi] at hdoc
          cases hdoc
          rfl
        rw [← h.2]
        refine ⟨by simp [hlen], ?_, ?_⟩
        · intro _
          rcases Nat.eq_zero_or_pos n with hn | hn
          · omega
          · have := hbound hn
            omega
        · rw [hdrop, List.take_succ_cons, List.map_cons, List.map_cons, hids, huid, hdoceq]

/-- C1: for every document parsed by Reader.parse_document, every
emitted token is the stemmed form of an alphabetic word occurring in the
body text of one of the document files of the parsed article, and that
word survives the stop filter: its lower-cased form is not in the fixed
stop set (the stopwords, the punctuation marks, et and al.).  Hence the
token list has no stop-word entries (membership tested on the
lower-cased pre-stem word, as the notebook tests it) and no
punctuation-only entries: the filtered words are alphabetic, and
whenever the stemmer preserves alphabeticity every emitted token is
itself alphabetic. -/
theorem parse_document_tokens_spec (env : NLP) (st : Storage) (table : List Article) (i : Nat)
    (st1 : Storage) (ws : List String) (uid : String)
    (h : parse_document env st table i = (st1, Except.ok (ws, uid))) :
    (∀ t ∈ ws, ∃ document, table[i]? = some document ∧ uid = document.cord_uid ∧
      ∃ f ∈ pySplit document.pdf_json_files "; ", ∃ d : DocJson,
        st.files (env.covid_dirpath ++ "/" ++ f) = some d ∧
        ∃ paragraph ∈ d.body_text, ∃ p_sentence ∈ env.sent_tokenize paragraph,
          ∃ w ∈ env.word_tokenize p_sentence,
            isalpha w = true ∧
            (stop_tokens env.stopwords).contains (pyLower w) = false ∧
            t = env.stem w) ∧
    ((∀ w, isalpha w = true → isalpha (env.stem w) = true) → ∀ t ∈ ws, isalpha t = true) := by
  obtain ⟨document, hdoc, huid, hpf⟩ := parse_document_ok env st table i st1 ws uid h
  have main : ∀ t ∈ ws, ∃ document, table[i]? = some document ∧ uid = document.cord_uid ∧
      ∃ f ∈ pySplit document.pdf_json_files "; ", ∃ d : DocJson,
        st.files (env.covid_dirpath ++ "/" ++ f) = some d ∧
        ∃ paragraph ∈ d.body_text, ∃ p_sentence ∈ env.sent_tokenize paragraph,
          ∃ w ∈ env.word_tokenize p_sentence,
            isalpha w = true ∧
            (stop_tokens env.stopwords).contains (pyLower w) = false ∧
            t = env.stem w := by
    intro t ht
    obtain ⟨f, hf, d, hd, htok⟩ :=
      parse_files_tokens env (pySplit document.pdf_json_files "; ") st st1 ws hpf t ht
    obtain ⟨para, hpara, sen, hsen, w, hw, ha, hs, hstem⟩ := doc_tokens_mem env d t htok
    exact ⟨document, hdoc, huid, f, hf, d, hd, para, hpara, sen, hsen, w, hw, ha, hs, hstem⟩
  refine ⟨main, ?_⟩
  intro hstem t ht
  obtain ⟨_, _, _, _, _, _, _, _, _, _, _, w, _, ha, _, hteq⟩ := main t ht
  rw [hteq]
  exact hstem w ha

/-- Witness for C1: the concrete document of tableW parses to the tokens
virus and spread; the theorem is applied to the token virus. -/
theorem parse_document_tokens_spec_witness :
    (∃ document, tableW[0]? = some document ∧ "u1" = document.cord_uid ∧
      ∃ f ∈ pySplit document.pdf_json_files "; ", ∃ d : DocJson,
        stW.files (envW.covid_dirpath ++ "/" ++ f) = some d ∧
        ∃ paragraph ∈ d.body_text, ∃ p_sentence ∈ envW.sent_tokenize paragraph,
          ∃ w ∈ envW.word_tokenize p_sentence,
            isalpha w = true ∧
            (stop_tokens envW.stopwords).contains (pyLower w) = false ∧
            "virus" = envW.stem w) ∧ isalpha "virus" = true :=
  ⟨(parse_document_tokens_spec envW stW tableW 0 stW ["virus", "spread"] "u1" rfl).1
      "virus" (by simp),
   (parse_document_tokens_spec envW stW tableW 0 stW ["virus", "spread"] "u1" rfl).2
      (fun _ hw => hw) "virus" (by simp)⟩

/-- C2: Reader.read_file_to_json fails exactly when the path is absent
from the storage files even after remounting; a present file is returned
parsed, on the first attempt when the mount is up, and through the
remount-and-retry when the mount is down; and an absent file leaves the
mount re-established and propagates the error to the caller. -/
theorem read_file_to_json_spec (st : Storage) (p : String) :
    ((read_file_to_json st p).2 = Except.error () ↔ st.files p = none) ∧
    (∀ d : DocJson, st.files p = some d → st.mounted = true →
      read_file_to_json st p = (st, Except.ok d)) ∧
    (∀ d : DocJson, st.files p = some d → st.mounted = false →
      read_file_to_json st p = (mountStart st, Except.ok d)) ∧
    (st.files p = none → read_file_to_json st p = (mountStart st, Except.error ())) := by
  rcases st with ⟨m, files⟩
  cases m <;> cases hf : files p <;>
    simp [read_file_to_json, openAttempt, mountStart, hf]

/-- C7: a successful full pass of Corpus.plain_iter over a fixed table
produces exactly n pairs, whose ids are the cord_uid values of the table
rows at indices 0 to n-1 in ascending order; re-running the pass from
the state the first pass left behind yields the same sequence and the
same state; and the output of a pass from any state is determined by the
files visible to that pass (each pass re-reads the storage, nothing is
cached between passes). -/
theorem corpus_plain_iter_spec (env : NLP) (table : List Article) (n : Nat)
    (st st1 : Storage) (xs : List (List String × String))
    (h : plain_iter env table n st = (st1, Except.ok xs)) :
    xs.length = n ∧
    (0 < n → n ≤ table.length) ∧
    xs.map Prod.snd = (table.take n).map Article.cord_uid ∧
    plain_iter env table n st1 = (st1, Except.ok xs) ∧
    (∀ st2 : Storage,
      (plain_iter env table n st2).2 = plain_iter_result env st2.files table n 0) := by
  have h' : plain_iter_aux env table n 0 st = (st1, Except.ok xs) := h
  have hok := plain_iter_aux_ok env table n 0 st st1 xs h'
  refine ⟨hok.1, ?_, by simpa using hok.2.2, ?_, ?_⟩
  · intro hn
    have := hok.2.1 hn
    omega
  · show plain_iter_aux env table n 0 st1 = (st1, Except.ok xs)
    rcases plain_iter_aux_shape env table n 0 st with hs | hs <;> rw [h'] at hs
    · have hs2 : st1 = st := hs
      subst hs2
      exact h'
    · have hs2 : st1 = mountStart st := hs
      have hm : st1.mounted = true := by rw [hs2]; rfl
      have hfiles : st1.files = st.files := by
        rw [← plain_iter_aux_files_eq env table n 0 st, h']
      rw [Prod.ext_iff]
      refine ⟨plain_iter_aux_mounted_fst env table n 0 st1 hm, ?_⟩
      rw [plain_iter_aux_snd_eq env table n 0 st1, hfiles,
        ← plain_iter_aux_snd_eq env table n 0 st, h']
  · intro st2
    exact plain_iter_aux_snd_eq env table n 0 st2

/-- Witness for C7: the pass over the one-article table yields the id
sequence of the first table row. -/
theorem corpus_plain_iter_spec_witness :
    [((["virus", "spread"] : List String), "u1")].map Prod.snd =
      (tableW.take 1).map Article.cord_uid :=
  (corpus_plain_iter_spec envW tableW 1 stW stW [(["virus", "spread"], "u1")] rfl).2.2.1

lemma corpus_iter_aux_eq (env : NLP) (table : List Article) (n i : Nat) (st : Storage) :
    corpus_iter_aux env table n i st =
      ((plain_iter_aux env table n i st).1,
       (plain_iter_aux env table n i st).2.map
         (List.map fun x => TaggedDocument.mk x.1 (PyTags.str x.2))) := by
  induction n generalizing i st with
  | zero => rfl
  | succ n ih =>
    simp only [corpus_iter_aux, plain_iter_aux]
    rcases h1 : (parse_document env st table i).2 with e | x
    · rfl
    · rw [ih (i + 1) (parse_document env st table i).1]
      rcases h2 : (plain_iter_aux env table n (i + 1) (parse_document env st table i).1).2
        with e | xs <;> rfl

/-- C10: Corpus.__iter__ and Corpus.plain_iter run the same parses: the
tagged pass is the plain pass with each pair rewrapped, element by
element, as TaggedDocument(words, tags) whose tags value is the raw
document-id string itself; and the raw-string tags value is never the
one-element list holding that id. -/
theorem corpus_iter_eq_plain_iter (env : NLP) (table : List Article) (n : Nat) (st : Storage) :
    corpus_iter env table n st =
      ((plain_iter env table n st).1,
       (plain_iter env table n st).2.map
         (List.map fun x => TaggedDocument.mk x.1 (PyTags.str x.2))) ∧
    ∀ s : String, PyTags.str s ≠ PyTags.list [s] := by
  refine ⟨corpus_iter_aux_eq env table n 0 st, ?_⟩
  intro s hcontra
  cases hcontra

lemma infer_loop_eq (model : Doc2Vec) (docs : List (List String × String)) :
    infer_loop model docs =
      (model, (docs.map fun x => model.infer x.1, docs.map Prod.snd)) := by
  induction docs with
  | nil => rfl
  | cons x rest ih =>
    rcases x with ⟨words, doc_id⟩
    simp [infer_loop, infer_vector, ih]

/-- C3: inference is deterministic given the model state and the input
tokens and has no side effect on the model: infer_vector returns the
model unchanged, a second invocation on the returned model and the same
tokens yields the identical vector, and the whole inference pass leaves
the model unchanged and is repeatable with identical output. -/
theorem infer_vector_deterministic (model : Doc2Vec) (tokens : List String)
    (docs : List (List String × String)) :
    (infer_vector model tokens).1 = model ∧
    (infer_vector ((infer_vector model tokens).1) tokens).2 = (infer_vector model tokens).2 ∧
    (infer_loop model docs).1 = model ∧
    (infer_loop ((infer_loop model docs).1) docs).2 = (infer_loop model docs).2 := by
  refine ⟨rfl, rfl, ?_, ?_⟩ <;> simp [infer_loop_eq]

/-- C6: the model artifact filename is determined by the document count
alone; when the artifact exists on disk the stored model is returned and
the disk is unchanged (nothing is trained or saved: any two trainers
give the same outcome); otherwise the model trained over Corpus(n) with
vector_size 128 and batch_words 10 is returned and saved under exactly
the artifact filename, every other path left unchanged. -/
theorem load_or_train_model_spec (train : Nat → Nat → Nat → Doc2Vec)
    (disk : String → Option Doc2Vec) (n : Nat) :
    (∀ m, disk (model_filename n) = some m →
      load_or_train_model train disk n = (m, disk) ∧
      ∀ train2 : Nat → Nat → Nat → Doc2Vec,
        load_or_train_model train2 disk n = load_or_train_model train disk n) ∧
    (disk (model_filename n) = none →
      (load_or_train_model train disk n).1 = train n 128 10 ∧
      (load_or_train_model train disk n).2 (model_filename n) = some (train n 128 10) ∧
      ∀ p, p ≠ model_filename n → (load_or_train_model train disk n).2 p = disk p) := by
  constructor
  · intro m hm
    constructor
    · simp [load_or_train_model, hm]
    · intro train2
      simp [load_or_train_model, hm]
  · intro hn
    refine ⟨by simp [load_or_train_model, hn], by simp [load_or_train_model, hn], ?_⟩
    intro p hp
    simp [load_or_train_model, hn, hp]

/-- C4: the clustering stage searches the elbow over the candidate range
between 3 and 20, fits the final clustering with the elbow value when it
is at most 12 and with 12 when it exceeds 12 (so the final count never
exceeds 12), and the final fit emits exactly one label per input row
with every label below the chosen count. -/
theorem clustering_stage_spec (lib : ClusterLib) (wv_rows : List (List Int))
    (helbow : ∀ lo hi data, lo ≤ hi →
      lo ≤ lib.elbow_value lo hi data ∧ lib.elbow_value lo hi data ≤ hi)
    (hlen : ∀ k data, (lib.kmeans_labels k data).length = data.length)
    (hlt : ∀ k data, 1 ≤ k → ∀ l ∈ lib.kmeans_labels k data, l < k) :
    (3 ≤ lib.elbow_value 3 20 wv_rows ∧ lib.elbow_value 3 20 wv_rows ≤ 20) ∧
    (clustering_stage lib wv_rows).1 ≤ 12 ∧
    (lib.elbow_value 3 20 wv_rows ≤ 12 →
      (clustering_stage lib wv_rows).1 = lib.elbow_value 3 20 wv_rows) ∧
    (12 < lib.elbow_value 3 20 wv_rows → (clustering_stage lib wv_rows).1 = 12) ∧
    ((clustering_stage lib wv_rows).2).length = wv_rows.length ∧
    (∀ l ∈ (clustering_stage lib wv_rows).2, l < (clustering_stage lib wv_rows).1) := by
  obtain ⟨he3, he20⟩ := helbow 3 20 wv_rows (by omega)
  have hk1 : 1 ≤ cap_k (lib.elbow_value 3 20 wv_rows) := by
    unfold cap_k
    split <;> omega
  refine ⟨⟨he3, he20⟩, ?_, ?_, ?_, hlen _ _, ?_⟩
  · show cap_k (lib.elbow_value 3 20 wv_rows) ≤ 12
    unfold cap_k
    split <;> omega
  · intro hle
    show cap_k (lib.elbow_value 3 20 wv_rows) = lib.elbow_value 3 20 wv_rows
    unfold cap_k
    split <;> omega
  · intro hgt
    show cap_k (lib.elbow_value 3 20 wv_rows) = 12
    unfold cap_k
    split <;> omega
  · intro l hl
    exact hlt _ _ hk1 l hl

/-- Witness for C4: the concrete clustering collaborators fitted over
two rows emit one label per row. -/
theorem clustering_stage_spec_witness :
    ((clustering_stage libW rowsW).2).length = rowsW.length :=
  (clustering_stage_spec libW rowsW
    (fun lo _ _ hle => ⟨le_refl lo, hle⟩)
    (fun k data => by simp [libW])
    (fun k data hk l hl => by
      obtain ⟨a, _, hal⟩ := List.mem_map.mp hl
      omega)).2.2.2.2.1

/-- C5: the train/test split of the labeled rows yields two lists whose
concatenation is a permutation of the labeled set (so the row counts add
up to the full count), the train part receives floor of 0.8 times the
row count, and when the labeled rows are distinct the two parts are
disjoint; which rows land where depends only on the run-dependent
shuffle. -/
theorem train_test_split_spec (α : Type) [DecidableEq α] (rows shuffled : List α)
    (hperm : shuffled.Perm rows) :
    ((train_test_split shuffled).1 ++ (train_test_split shuffled).2).Perm rows ∧
    (train_test_split shuffled).1.length + (train_test_split shuffled).2.length = rows.length ∧
    (train_test_split shuffled).1.length = 4 * rows.length / 5 ∧
    (rows.Nodup → ∀ x ∈ (train_test_split shuffled).1, x ∉ (train_test_split shuffled).2) := by
  have happ : (train_test_split shuffled).1 ++ (train_test_split shuffled).2 = shuffled :=
    List.take_append_drop _ _
  have hlen : shuffled.length = rows.length := hperm.length_eq
  refine ⟨by rw [happ]; exact hperm, ?_, ?_, ?_⟩
  · simp only [train_test_split, List.length_take, List.length_drop]
    omega
  · simp only [train_test_split, List.length_take]
    omega
  · intro hnd x hx hx2
    exact List.disjoint_take_drop ((hperm.nodup_iff).mpr hnd) (le_refl _) hx hx2

/-- Witness for C5: splitting five distinct rows gives a train part of
four rows. -/
theorem train_test_split_spec_witness :
    (train_test_split ([0, 1, 2, 3, 4] : List Nat)).1.length =
      4 * ([0, 1, 2, 3, 4] : List Nat).length / 5 :=
  (train_test_split_spec Nat [0, 1, 2, 3, 4] [0, 1, 2, 3, 4] (List.Perm.refl _)).2.2.1

lemma wv_df_map_fst (model : Doc2Vec) (docs : List (List String × String)) :
    (wv_df (infer_loop model docs).2.1 (infer_loop model docs).2.2).map Prod.fst =
      (infer_loop model docs).2.2 := by
  simp only [wv_df, infer_loop_eq]
  rw [List.map_fst_zip]
  simp

lemma concat_axis1_map_fst (left : List (String × Article)) (right : List (String × List Int)) :
    (concat_axis1 left right).map Prod.fst = (left.map Prod.fst ++ right.map Prod.fst).dedup := by
  simp [concat_axis1, List.map_map, Function.comp_def]

lemma wv_df_row (model : Doc2Vec) (docs : List (List String × String)) (j : Nat) :
    (wv_df (infer_loop model docs).2.1 (infer_loop model docs).2.2)[j]? =
      (docs[j]?).map fun x => (x.2, model.infer x.1) := by
  simp only [wv_df, infer_loop_eq]
  rcases h : docs[j]? with _ | x
  · have hj : docs.length ≤ j := List.getElem?_eq_none_iff.mp h
    rw [List.getElem?_eq_none, Option.map_none']
    simp [List.length_zip, hj]
  · have hj : j < docs.length := by
      by_contra hc
      push_neg at hc
      rw [List.getElem?_eq_none hc] at h
      cases h
    rw [Option.map_some', List.getElem?_zip_eq_some]
    constructor
    · rw [List.getElem?_map, h, Option.map_some']
    · rw [List.getElem?_map, h, Option.map_some']

/-- C8: the inference pass extends the vector list and the id list in
lockstep, so the vector frame pairs the j-th inferred vector with the
j-th document id (row j of wv_df is the id and inferred vector of corpus
pair j); with distinct document ids each vector row bears exactly one
key; and the merge into the metadata joins, for every row of the merged
table, the metadata row and the vector row bearing that same article id,
every collected id appearing among the merged keys. -/
theorem vector_id_join_spec (model : Doc2Vec) (docs : List (List String × String))
    (meta : List Article) (n : Nat)
    (hids : (docs.map Prod.snd).Nodup) :
    (infer_loop model docs).2.2 = docs.map Prod.snd ∧
    ((infer_loop model docs).2.1).length = ((infer_loop model docs).2.2).length ∧
    (∀ j : Nat,
      (wv_df (infer_loop model docs).2.1 (infer_loop model docs).2.2)[j]? =
        (docs[j]?).map fun x => (x.2, model.infer x.1)) ∧
    ((wv_df (infer_loop model docs).2.1 (infer_loop model docs).2.2).map Prod.fst).Nodup ∧
    (∀ p ∈ metadata_with_embeddings meta n
        (wv_df (infer_loop model docs).2.1 (infer_loop model docs).2.2),
      p.2.1 = List.lookup p.1 ((set_index meta).take n) ∧
      p.2.2 = List.lookup p.1
        (wv_df (infer_loop model docs).2.1 (infer_loop model docs).2.2)) ∧
    (∀ id ∈ (infer_loop model docs).2.2,
      id ∈ (metadata_with_embeddings meta n
        (wv_df (infer_loop model docs).2.1 (infer_loop model docs).2.2)).map Prod.fst) := by
  refine ⟨by simp [infer_loop_eq], by simp [infer_loop_eq], wv_df_row model docs, ?_, ?_, ?_⟩
  · rw [wv_df_map_fst, infer_loop_eq]
    exact hids
  · intro p hp
    simp only [metadata_with_embeddings, concat_axis1, List.mem_map] at hp
    obtain ⟨k, _, rfl⟩ := hp
    exact ⟨rfl, rfl⟩
  · intro id hid
    rw [metadata_with_embeddings, concat_axis1_map_fst, List.mem_dedup]
    refine List.mem_append_right _ ?_
    rw [wv_df_map_fst]
    exact hid

/-- Witness for C8: the two-document inference pass collects the ids in
corpus order. -/
theorem vector_id_join_spec_witness :
    (infer_loop modelW docsW).2.2 = docsW.map Prod.snd :=
  (vector_id_join_spec modelW docsW metaW 2 (by decide)).1

/-- C9: attaching the cluster labels mutates the shared object through
an alias: metadata_with_clusters receives the very reference held by
metadata_with_embeddings (the same object), the object behind that
reference now carries the cluster column appended after its previous
columns (which are unchanged), its row index is unchanged, and every
other object in the heap is untouched. -/
theorem attach_clusters_spec (heap : List DataFrame) (r : Nat) (clusters : List Int)
    (hr : r < heap.length)
    (hfresh : ∀ c ∈ (heap.getD r dfEmpty).cols, c.1 ≠ "cluster") :
    (attach_clusters heap r clusters).2 = r ∧
    ((attach_clusters heap r clusters).1).length = heap.length ∧
    (∀ j, j ≠ r →
      ((attach_clusters heap r clusters).1).getD j dfEmpty = heap.getD j dfEmpty) ∧
    (((attach_clusters heap r clusters).1).getD r dfEmpty).index =
      (heap.getD r dfEmpty).index ∧
    (((attach_clusters heap r clusters).1).getD r dfEmpty).cols =
      (heap.getD r dfEmpty).cols ++ [("cluster", clusters)] := by
  have hset : ((attach_clusters heap r clusters).1).getD r dfEmpty =
      set_column (heap.getD r dfEmpty) "cluster" clusters := by
    simp only [attach_clusters]
    rw [List.getD_eq_getElem?_getD, List.getElem?_set_self hr]
    rfl
  have hnotmem : "cluster" ∉ (heap.getD r dfEmpty).cols.map Prod.fst := by
    intro hmem
    obtain ⟨c, hc, hceq⟩ := List.mem_map.mp hmem
    exact hfresh c hc hceq
  have hcol : set_column (heap.getD r dfEmpty) "cluster" clusters =
      ⟨(heap.getD r dfEmpty).index, (heap.getD r dfEmpty).cols ++ [("cluster", clusters)]⟩ := by
    unfold set_column
    rw [if_neg hnotmem]
  refine ⟨rfl, by simp [attach_clusters], ?_, ?_, ?_⟩
  · intro j hj
    simp only [attach_clusters, List.getD_eq_getElem?_getD]
    rw [List.getElem?_set_ne (Ne.symm hj)]
  · rw [hset, hcol]
  · rw [hset, hcol]

/-- Witness for C9: attaching two labels to the one concrete frame of
heapW appends the cluster column after the existing column. -/
theorem attach_clusters_spec_witness :
    (((attach_clusters heapW 0 [9, 9]).1).getD 0 dfEmpty).cols =
      (heapW.getD 0 dfEmpty).cols ++ [("cluster", [9, 9])] :=
  (attach_clusters_spec heapW 0 [9, 9] (by decide) (by decide)).2.2.2.2
